import Mathlib

/-!
Verification development for the response-streaming bridge and
conversation-assembly layer of the `agent-rina` chat bot
(`src/lib/rina/agent.ts`, `src/lib/rina/tools/web.ts`, the registered
bot handlers, and `constants.ts`).

Strings are embedded as `List Char`; the stateful dispatcher loops are
embedded as folds over event lists; the effectful post/run operations are
embedded by making their outcomes explicit parameters.
-/

namespace Rina

/-- The set of characters treated as whitespace by JavaScript's
`String.prototype.trim` / `trimStart` / `trimEnd` (WhiteSpace ∪ LineTerminator). -/
def jsWhitespace (c : Char) : Bool :=
  c == ' ' || c == '\t' || c == '\n' || c == '\r' ||
  c.val == 11 || c.val == 12 ||
  c.val == 0xA0 || c.val == 0x1680 ||
  (0x2000 ≤ c.val && c.val ≤ 0x200A) ||
  c.val == 0x2028 || c.val == 0x2029 || c.val == 0x202F ||
  c.val == 0x205F || c.val == 0x3000 || c.val == 0xFEFF

/-- JS `s.trimStart()`. -/
def trimStart (l : List Char) : List Char := l.dropWhile jsWhitespace

/-- JS `s.trimEnd()`. -/
def trimEnd (l : List Char) : List Char := (l.reverse.dropWhile jsWhitespace).reverse

/-- JS `s.trim()`. -/
def trim (l : List Char) : List Char := trimEnd (trimStart l)

/-- The non-whitespace characters of a string, in order. -/
def filterNW (l : List Char) : List Char := l.filter (fun c => !jsWhitespace c)

/-- Does `pat` occur in `l` starting at index `i`? -/
def matchesAt (l pat : List Char) (i : Nat) : Bool := pat.isPrefixOf (l.drop i)

/-- Scan downward from index `i` for the last occurrence of `pat`. -/
def lastIndexOfAux (l pat : List Char) : Nat → Int
  | 0 => if matchesAt l pat 0 then 0 else -1
  | i + 1 => if matchesAt l pat (i + 1) then ((i + 1 : Nat) : Int) else lastIndexOfAux l pat i

/-- JS `l.lastIndexOf(pat)`: the largest index at which `pat` occurs, `-1` if none. -/
def lastIndexOf (l pat : List Char) : Int := lastIndexOfAux l pat l.length

/-- `TELEGRAM_MAX_LENGTH` from `src/lib/rina/agent.ts`. -/
def TELEGRAM_MAX_LENGTH : Nat := 4000

/-- The split-point computation inside `splitLongText`'s loop:
`lastIndexOf "\n\n"`, falling back to `lastIndexOf "\n"` and then to a hard
cut whenever the candidate is below `TELEGRAM_MAX_LENGTH / 2`. -/
def chooseSplit (remaining : List Char) : Int :=
  let slice := remaining.take TELEGRAM_MAX_LENGTH
  let half : Int := (TELEGRAM_MAX_LENGTH : Int) / 2
  let s1 := lastIndexOf slice ['\n', '\n']
  let s2 := if s1 < half then lastIndexOf slice ['\n'] else s1
  if s2 < half then (TELEGRAM_MAX_LENGTH : Int) else s2

theorem lastIndexOfAux_le (l pat : List Char) (i : Nat) :
    lastIndexOfAux l pat i ≤ (i : Int) := by
  induction i with
  | zero => simp only [lastIndexOfAux]; split <;> simp
  | succ n ih =>
    simp only [lastIndexOfAux]
    split
    · exact le_refl _
    · exact le_trans ih (by exact_mod_cast Nat.le_succ n)

theorem lastIndexOf_le (l pat : List Char) : lastIndexOf l pat ≤ (l.length : Int) :=
  lastIndexOfAux_le l pat l.length

theorem chooseSplit_ge (remaining : List Char) :
    ((TELEGRAM_MAX_LENGTH : Int) / 2) ≤ chooseSplit remaining := by
  unfold chooseSplit
  simp only [TELEGRAM_MAX_LENGTH]
  norm_num
  split <;> omega

theorem chooseSplit_le (remaining : List Char) :
    chooseSplit remaining ≤ (TELEGRAM_MAX_LENGTH : Int) := by
  have h1 := lastIndexOf_le (remaining.take TELEGRAM_MAX_LENGTH) ['\n', '\n']
  have h2 := lastIndexOf_le (remaining.take TELEGRAM_MAX_LENGTH) ['\n']
  have h3 : ((remaining.take TELEGRAM_MAX_LENGTH).length : Int) ≤ (TELEGRAM_MAX_LENGTH : Int) := by
    have : (remaining.take TELEGRAM_MAX_LENGTH).length ≤ TELEGRAM_MAX_LENGTH := by
      simp [List.length_take]
    exact_mod_cast this
  unfold chooseSplit
  simp only [TELEGRAM_MAX_LENGTH] at h1 h2 h3 ⊢
  split
  · split <;> omega
  · omega

theorem length_dropWhile_le (p : Char → Bool) (l : List Char) :
    (l.dropWhile p).length ≤ l.length := by
  induction l with
  | nil => simp
  | cons a t ih =>
    by_cases h : p a
    · simp only [List.dropWhile_cons, h, if_true]
      exact le_trans ih (Nat.le_succ _)
    · simp [List.dropWhile_cons, h]

theorem trimStart_length_le (l : List Char) : (trimStart l).length ≤ l.length :=
  length_dropWhile_le jsWhitespace l

theorem trimEnd_length_le (l : List Char) : (trimEnd l).length ≤ l.length := by
  unfold trimEnd
  rw [List.length_reverse]
  calc (l.reverse.dropWhile jsWhitespace).length
      ≤ l.reverse.length := length_dropWhile_le jsWhitespace l.reverse
    _ = l.length := List.length_reverse l

/-- `splitLongText`'s while-loop plus the final conditional push
(`src/lib/rina/agent.ts` lines 28–41). -/
def splitLongTextGo (remaining : List Char) : List (List Char) :=
  if h : TELEGRAM_MAX_LENGTH < remaining.length then
    let splitAt := (chooseSplit remaining).toNat
    trimEnd (remaining.take splitAt) :: splitLongTextGo (trimStart (remaining.drop splitAt))
  else if 0 < (trim remaining).length then [remaining] else []
termination_by remaining.length
decreasing_by
  have hge := chooseSplit_ge remaining
  have h2000 : (2000 : Int) ≤ chooseSplit remaining := by
    simpa [TELEGRAM_MAX_LENGTH] using hge
  have hpos : 0 < (chooseSplit remaining).toNat := by omega
  calc (trimStart (remaining.drop (chooseSplit remaining).toNat)).length
      ≤ (remaining.drop (chooseSplit remaining).toNat).length :=
        trimStart_length_le _
    _ = remaining.length - (chooseSplit remaining).toNat := List.length_drop _ _
    _ < remaining.length := by
        simp only [TELEGRAM_MAX_LENGTH] at h
        omega

/-- `splitLongText` from `src/lib/rina/agent.ts` (lines 25–42). -/
def splitLongText (text : List Char) : List (List Char) :=
  if text.length ≤ TELEGRAM_MAX_LENGTH then [text] else splitLongTextGo text

/-- Concatenation of a list of chunks. -/
def concatAll (ls : List (List Char)) : List Char := ls.foldr (· ++ ·) []

theorem filter_takeWhile_nil (l : List Char) :
    (l.takeWhile jsWhitespace).filter (fun c => !jsWhitespace c) = [] := by
  induction l with
  | nil => rfl
  | cons a t ih =>
    by_cases h : jsWhitespace a
    · simp [List.takeWhile_cons, List.filter_cons, h, ih]
    · simp [List.takeWhile_cons, h]

theorem filterNW_trimStart (l : List Char) : filterNW (trimStart l) = filterNW l := by
  conv_rhs => rw [← List.takeWhile_append_dropWhile (p := jsWhitespace) (l := l)]
  unfold trimStart filterNW
  rw [List.filter_append, filter_takeWhile_nil]
  simp

theorem filterNW_reverse (l : List Char) : filterNW l.reverse = (filterNW l).reverse := by
  unfold filterNW
  induction l with
  | nil => rfl
  | cons a t ih =>
    by_cases h : jsWhitespace a <;>
      simp [List.filter_append, List.filter_cons, h, ih]

theorem filterNW_trimEnd (l : List Char) : filterNW (trimEnd l) = filterNW l := by
  unfold trimEnd
  rw [filterNW_reverse]
  show (filterNW (trimStart l.reverse)).reverse = filterNW l
  rw [filterNW_trimStart, filterNW_reverse, List.reverse_reverse]

theorem filterNW_trim (l : List Char) : filterNW (trim l) = filterNW l := by
  unfold trim
  rw [filterNW_trimEnd, filterNW_trimStart]

theorem filterNW_append (l₁ l₂ : List Char) :
    filterNW (l₁ ++ l₂) = filterNW l₁ ++ filterNW l₂ :=
  List.filter_append _ _

theorem splitLongTextGo_filter (r : List Char) :
    filterNW (concatAll (splitLongTextGo r)) = filterNW r := by
  induction r using splitLongTextGo.induct with
  | case1 r h sA ih =>
    rw [splitLongTextGo, dif_pos h]
    show filterNW (trimEnd (r.take (chooseSplit r).toNat) ++
      concatAll (splitLongTextGo (trimStart (r.drop (chooseSplit r).toNat)))) = filterNW r
    have ih' : filterNW (concatAll (splitLongTextGo
        (trimStart (r.drop (chooseSplit r).toNat)))) =
        filterNW (trimStart (r.drop (chooseSplit r).toNat)) := ih
    rw [filterNW_append, filterNW_trimEnd, ih', filterNW_trimStart,
      ← filterNW_append, List.take_append_drop]
  | case2 r h h2 =>
    rw [splitLongTextGo, dif_neg h, if_pos h2]
    show filterNW (r ++ []) = filterNW r
    rw [List.append_nil]
  | case3 r h h2 =>
    rw [splitLongTextGo, dif_neg h, if_neg h2]
    show filterNW ([] : List Char) = filterNW r
    have htrim : trim r = [] := by
      have : (trim r).length = 0 := by omega
      exact List.length_eq_zero.mp this
    have := filterNW_trim r
    rw [htrim] at this
    exact this

theorem splitLongTextGo_chunk_le (r : List Char) :
    ∀ c ∈ splitLongTextGo r, c.length ≤ TELEGRAM_MAX_LENGTH := by
  induction r using splitLongTextGo.induct with
  | case1 r h sA ih =>
    rw [splitLongTextGo, dif_pos h]
    intro c hc
    rcases List.mem_cons.mp hc with hc | hc
    · subst hc
      have h1 : (r.take (chooseSplit r).toNat).length ≤ (chooseSplit r).toNat := by
        simp [List.length_take]
      have h2 : (chooseSplit r).toNat ≤ TELEGRAM_MAX_LENGTH := by
        have := chooseSplit_le r
        omega
      exact le_trans (le_trans (trimEnd_length_le _) h1) h2
    · exact ih c hc
  | case2 r h h2 =>
    rw [splitLongTextGo, dif_neg h, if_pos h2]
    intro c hc
    rcases List.mem_cons.mp hc with hc | hc
    · subst hc; omega
    · simp at hc
  | case3 r h h2 =>
    rw [splitLongTextGo, dif_neg h, if_neg h2]
    intro c hc
    simp at hc

/-- C1: `splitLongText` with the fixed maximum length 4000 returns `[text]`
unchanged when `text` is short enough; otherwise every chunk it returns has
length ≤ 4000, and concatenating the chunks preserves the original text's
non-whitespace characters in order (only whitespace around split points is
removed). -/
theorem claim1_splitLongText (text : List Char) :
    (text.length ≤ TELEGRAM_MAX_LENGTH → splitLongText text = [text]) ∧
    (∀ c ∈ splitLongText text, c.length ≤ TELEGRAM_MAX_LENGTH) ∧
    filterNW (concatAll (splitLongText text)) = filterNW text := by
  unfold splitLongText
  by_cases h : text.length ≤ TELEGRAM_MAX_LENGTH
  · rw [if_pos h]
    refine ⟨fun _ => rfl, ?_, ?_⟩
    · intro c hc
      rcases List.mem_cons.mp hc with hc | hc
      · subst hc; exact h
      · simp at hc
    · show filterNW (text ++ []) = filterNW text
      rw [List.append_nil]
  · rw [if_neg h]
    exact ⟨fun hle => absurd hle h, splitLongTextGo_chunk_le text,
      splitLongTextGo_filter text⟩

/-- Witness for C1 at a concrete short input. -/
theorem claim1_splitLongText_witness :
    splitLongText ('h' :: 'i' :: []) = [('h' :: 'i' :: [])] :=
  (claim1_splitLongText _).1 (by decide)

/-! ## RetryingDelivery: `postWithRetry` / `isRetryableNetworkError` -/

/-- The fields of a JS `Error` value that `isRetryableNetworkError` inspects:
`message`, `code`, `cause?.code`, `originalError?.code`. -/
structure JsError where
  message : List Char
  code : Option (List Char) := none
  causeCode : Option (List Char) := none
  originalCode : Option (List Char) := none
deriving DecidableEq

/-- A JS thrown value: either an `Error` instance or anything else. -/
inductive JsVal where
  | error (e : JsError)
  | nonError
deriving DecidableEq

/-- JS `sub` occurs as a contiguous substring of `l` (`String.prototype.includes`). -/
def containsSub (l sub : List Char) : Bool :=
  match l with
  | [] => sub.isEmpty
  | _ :: t => sub.isPrefixOf l || containsSub t sub

/-- ASCII lowercasing, as applied by `message.toLowerCase()` on the
ASCII-only signatures being searched for. -/
def lowerAscii (l : List Char) : List Char := l.map Char.toLower

/-- `isRetryableNetworkError` from `src/lib/rina/agent.ts` (lines 48–63). -/
def isRetryableNetworkError : JsVal → Bool
  | .nonError => false
  | .error e =>
    let message := lowerAscii e.message
    e.code == some "NETWORK_ERROR".toList ||
    e.causeCode == some "UND_ERR_CONNECT_TIMEOUT".toList ||
    e.originalCode == some "UND_ERR_CONNECT_TIMEOUT".toList ||
    containsSub message "network error".toList ||
    containsSub message "connect timeout".toList

/-- `RETRY_DELAYS_MS` from `src/lib/rina/agent.ts`. -/
def RETRY_DELAYS_MS : List Nat := [400, 1200, 2500]

/-- Observable behaviour of one `postWithRetry` call: how many attempts were
made, which sleeps happened between attempts (in order), and the outcome. -/
instance : DecidableEq (Except JsVal Unit)
  | .ok (), .ok () => isTrue rfl
  | .ok _, .error _ => isFalse (fun h => Except.noConfusion h)
  | .error _, .ok _ => isFalse (fun h => Except.noConfusion h)
  | .error e₁, .error e₂ =>
    if h : e₁ = e₂ then isTrue (by rw [h]) else
      isFalse (fun hh => h (Except.noConfusion hh id))

structure RetryTrace where
  attempts : Nat
  sleeps : List Nat
  result : Except JsVal Unit
deriving DecidableEq

/-- The `postWithRetry` loop (`src/lib/rina/agent.ts` lines 65–85), entered
with counter `attempt`; `post n` is the outcome of the `thread.post` call made
on the n-th attempt (0-based). -/
def postWithRetryFrom (post : Nat → Except JsVal Unit) (attempt : Nat) : RetryTrace :=
  match post attempt with
  | .ok _ => ⟨1, [], .ok ()⟩
  | .error e =>
    if h : RETRY_DELAYS_MS.length ≤ attempt ∨ isRetryableNetworkError e = false then
      ⟨1, [], .error e⟩
    else
      let rest := postWithRetryFrom post (attempt + 1)
      ⟨1 + rest.attempts, RETRY_DELAYS_MS.getD attempt 0 :: rest.sleeps, rest.result⟩
termination_by RETRY_DELAYS_MS.length - attempt
decreasing_by
  push_neg at h
  simp only [RETRY_DELAYS_MS] at *
  omega

/-- `postWithRetry` (the loop starts with `attempt = 0`). -/
def postWithRetry (post : Nat → Except JsVal Unit) : RetryTrace :=
  postWithRetryFrom post 0

theorem postWithRetryFrom_ok (post : Nat → Except JsVal Unit) (a : Nat)
    (h : post a = .ok ()) : postWithRetryFrom post a = ⟨1, [], .ok ()⟩ := by
  unfold postWithRetryFrom
  rw [h]

theorem postWithRetryFrom_throw (post : Nat → Except JsVal Unit) (a : Nat) (e : JsVal)
    (h : post a = .error e)
    (hc : RETRY_DELAYS_MS.length ≤ a ∨ isRetryableNetworkError e = false) :
    postWithRetryFrom post a = ⟨1, [], .error e⟩ := by
  unfold postWithRetryFrom
  rw [h]
  exact dif_pos hc

theorem postWithRetryFrom_retry (post : Nat → Except JsVal Unit) (a : Nat) (e : JsVal)
    (h : post a = .error e) (ha : a < RETRY_DELAYS_MS.length)
    (hr : isRetryableNetworkError e = true) :
    postWithRetryFrom post a =
      ⟨1 + (postWithRetryFrom post (a + 1)).attempts,
       RETRY_DELAYS_MS.getD a 0 :: (postWithRetryFrom post (a + 1)).sleeps,
       (postWithRetryFrom post (a + 1)).result⟩ := by
  rw [postWithRetryFrom]
  rw [h]
  exact dif_neg (by push_neg; exact ⟨ha, by simp [hr]⟩)

/-- A retryable transient-network error (its message contains
`"network error"`). -/
def netErr : JsVal := .error { message := "network error".toList }

/-- A non-retryable error. -/
def plainErr : JsVal := .error { message := "boom".toList }

/-- C2: with the fixed delay list `[400, 1200, 2500]`: if every attempt fails
with a retryable transient-network error, `postWithRetry` makes exactly 4
attempts, sleeping 400ms, 1200ms, 2500ms in that order between consecutive
attempts, then re-raises the last failure; if the first attempt fails with a
non-retryable error, exactly 1 attempt is made and that error is raised
immediately; if any attempt succeeds, no further attempt is made. -/
theorem claim2_postWithRetry (post : Nat → Except JsVal Unit) :
    (∀ e : Nat → JsVal,
      (∀ n, n < 4 → post n = .error (e n)) →
      (∀ n, n < 4 → isRetryableNetworkError (e n) = true) →
      postWithRetry post = ⟨4, [400, 1200, 2500], .error (e 3)⟩) ∧
    (∀ e : JsVal, post 0 = .error e → isRetryableNetworkError e = false →
      postWithRetry post = ⟨1, [], .error e⟩) ∧
    (∀ k, k < 4 →
      (∀ n, n < k → ∃ e, post n = .error e ∧ isRetryableNetworkError e = true) →
      post k = .ok () →
      postWithRetry post = ⟨k + 1, RETRY_DELAYS_MS.take k, .ok ()⟩) := by
  have hlen : RETRY_DELAYS_MS.length = 3 := rfl
  refine ⟨?_, ?_, ?_⟩
  · intro e hp hr
    unfold postWithRetry
    rw [postWithRetryFrom_retry post 0 (e 0) (hp 0 (by norm_num))
        (by rw [hlen]; norm_num) (hr 0 (by norm_num)),
      postWithRetryFrom_retry post 1 (e 1) (hp 1 (by norm_num))
        (by rw [hlen]; norm_num) (hr 1 (by norm_num)),
      postWithRetryFrom_retry post 2 (e 2) (hp 2 (by norm_num))
        (by rw [hlen]; norm_num) (hr 2 (by norm_num)),
      postWithRetryFrom_throw post 3 (e 3) (hp 3 (by norm_num))
        (Or.inl (by rw [hlen]))]
    rfl
  · intro e hp hr
    unfold postWithRetry
    rw [postWithRetryFrom_throw post 0 e hp (Or.inr hr)]
  · intro k hk hfail hok
    unfold postWithRetry
    interval_cases k
    · rw [postWithRetryFrom_ok post 0 hok]
      rfl
    · obtain ⟨e0, hp0, hr0⟩ := hfail 0 (by norm_num)
      rw [postWithRetryFrom_retry post 0 e0 hp0 (by rw [hlen]; norm_num) hr0,
        postWithRetryFrom_ok post 1 hok]
      rfl
    · obtain ⟨e0, hp0, hr0⟩ := hfail 0 (by norm_num)
      obtain ⟨e1, hp1, hr1⟩ := hfail 1 (by norm_num)
      rw [postWithRetryFrom_retry post 0 e0 hp0 (by rw [hlen]; norm_num) hr0,
        postWithRetryFrom_retry post 1 e1 hp1 (by rw [hlen]; norm_num) hr1,
        postWithRetryFrom_ok post 2 hok]
      rfl
    · obtain ⟨e0, hp0, hr0⟩ := hfail 0 (by norm_num)
      obtain ⟨e1, hp1, hr1⟩ := hfail 1 (by norm_num)
      obtain ⟨e2, hp2, hr2⟩ := hfail 2 (by norm_num)
      rw [postWithRetryFrom_retry post 0 e0 hp0 (by rw [hlen]; norm_num) hr0,
        postWithRetryFrom_retry post 1 e1 hp1 (by rw [hlen]; norm_num) hr1,
        postWithRetryFrom_retry post 2 e2 hp2 (by rw [hlen]; norm_num) hr2,
        postWithRetryFrom_ok post 3 hok]
      rfl

/-- Witness for C2 at concrete posting behaviours. -/
theorem claim2_postWithRetry_witness :
    postWithRetry (fun _ => .error netErr) = ⟨4, [400, 1200, 2500], .error netErr⟩ ∧
    postWithRetry (fun _ => .error plainErr) = ⟨1, [], .error plainErr⟩ ∧
    postWithRetry (fun n => if n = 0 then .error netErr else .ok ()) =
      ⟨2, [400], .ok ()⟩ := by
  refine ⟨?_, ?_, ?_⟩
  · exact (claim2_postWithRetry _).1 (fun _ => netErr) (fun n _ => rfl)
      (fun n _ => by show isRetryableNetworkError netErr = true; decide)
  · exact (claim2_postWithRetry _).2.1 plainErr rfl (by decide)
  · have h := (claim2_postWithRetry (fun n => if n = 0 then .error netErr else .ok ())).2.2
      1 (by norm_num)
      (fun n hn => by
        interval_cases n
        exact ⟨netErr, rfl, by decide⟩)
      rfl
    simpa [RETRY_DELAYS_MS] using h

/-! ## StreamRelay: the shared `{chunks, resolve, done}` state of `streamToChat` -/

/-- The shared relay state (`src/lib/rina/agent.ts` lines 203–207): the FIFO
`chunks` queue and the `done` flag. The single-slot `resolve` wake signal is
represented implicitly: a pull on an empty, not-done queue suspends until the
producer wakes it. -/
structure RelayState where
  chunks : List (List Char)
  done : Bool
deriving DecidableEq

/-- Producer `push`: what a `text-delta` does (enqueue fragment, wake consumer). -/
def relayPush (st : RelayState) (s : List Char) : RelayState :=
  { st with chunks := st.chunks ++ [s] }

/-- Producer `close`: what `text-end` does (set `done`, wake consumer). -/
def relayClose (st : RelayState) : RelayState := { st with done := true }

/-- The outcome of one pull by the consumer of `textStream()`. -/
inductive PullResult where
  | yielded (s : List Char) (st : RelayState)
  | terminated
  | suspended
deriving DecidableEq

/-- One `next()` step of the `textStream` generator (lines 209–217): shift and
yield the head chunk if the queue is non-empty; otherwise return iff `done`,
else suspend on a fresh `resolve` promise. -/
def relayPull (st : RelayState) : PullResult :=
  match st.chunks with
  | s :: rest => .yielded s { st with chunks := rest }
  | [] => if st.done then .terminated else .suspended

/-- An event of an interleaved producer/consumer execution on one relay. -/
inductive RelayEvent where
  | push (s : List Char)
  | close
  | pull
deriving DecidableEq

/-- A running execution: relay state, the fragments the consumer has observed
so far (in order), and whether the consumed sequence has terminated. -/
structure RelayRun where
  st : RelayState
  observed : List (List Char)
  terminated : Bool
deriving DecidableEq

/-- The state set up on `text-start`: empty queue, `done` cleared. -/
def relayInit : RelayRun := ⟨⟨[], false⟩, [], false⟩

/-- Apply one event of the interleaving. A pull after termination is a no-op
(the generator has returned); a suspended pull observes nothing. -/
def relayStep (r : RelayRun) : RelayEvent → RelayRun
  | .push s => { r with st := relayPush r.st s }
  | .close => { r with st := relayClose r.st }
  | .pull =>
    if r.terminated then r
    else
      match relayPull r.st with
      | .yielded s st' => { r with st := st', observed := r.observed ++ [s] }
      | .terminated => { r with terminated := true }
      | .suspended => r

/-- Run a whole interleaving from the fresh relay state. -/
def relayRun (tr : List RelayEvent) : RelayRun := tr.foldl relayStep relayInit

/-- The fragments pushed in an interleaving, in push order. -/
def relayPushes (tr : List RelayEvent) : List (List Char) :=
  tr.filterMap (fun e =>
    match e with
    | .push s => some s
    | _ => none)

theorem relayPull_terminated_iff (st : RelayState) :
    relayPull st = .terminated ↔ (st.chunks = [] ∧ st.done = true) := by
  unfold relayPull
  cases h : st.chunks with
  | nil =>
    by_cases hd : st.done = true
    · simp [hd]
    · simp at hd
      simp [hd]
  | cons s rest => simp

theorem relayStep_fifo (e : RelayEvent) (r : RelayRun) :
    (relayStep r e).observed ++ (relayStep r e).st.chunks =
      r.observed ++ r.st.chunks ++
        (match e with | .push s => [s] | _ => []) := by
  cases e with
  | push s => simp [relayStep, relayPush, List.append_assoc]
  | close => simp [relayStep, relayClose]
  | pull =>
    by_cases ht : r.terminated
    · simp [relayStep, ht]
    · simp only [relayStep, ht, if_false]
      cases hc : r.st.chunks with
      | nil =>
        by_cases hd : r.st.done <;>
          simp [relayPull, hc, hd]
      | cons s rest =>
        simp [relayPull, hc, List.append_assoc]

theorem relayFoldl_fifo (tr : List RelayEvent) (r : RelayRun) :
    (tr.foldl relayStep r).observed ++ (tr.foldl relayStep r).st.chunks =
      r.observed ++ r.st.chunks ++ relayPushes tr := by
  induction tr generalizing r with
  | nil => simp [relayPushes]
  | cons e tr ih =>
    rw [List.foldl_cons, ih]
    rw [relayStep_fifo]
    cases e <;> simp [relayPushes, List.filterMap_cons, List.append_assoc]

theorem relayStep_done (e : RelayEvent) (r : RelayRun) :
    (relayStep r e).st.done = (r.st.done || (e == .close)) := by
  cases e with
  | push s => simp [relayStep, relayPush]
  | close => simp [relayStep, relayClose]
  | pull =>
    by_cases ht : r.terminated
    · simp [relayStep, ht]
    · simp only [relayStep, ht, if_false]
      cases hc : r.st.chunks with
      | nil =>
        by_cases hd : r.st.done <;> simp [relayPull, hc, hd]
      | cons s rest => simp [relayPull, hc]

theorem relayFoldl_done (tr : List RelayEvent) (r : RelayRun) :
    (tr.foldl relayStep r).st.done =
      (r.st.done || tr.any (fun e => e == .close)) := by
  induction tr generalizing r with
  | nil => simp
  | cons e tr ih =>
    rw [List.foldl_cons, ih, relayStep_done]
    cases e <;> simp [Bool.or_assoc]

theorem relayStep_term_done (e : RelayEvent) (r : RelayRun)
    (h : r.terminated = true → r.st.done = true) :
    (relayStep r e).terminated = true → (relayStep r e).st.done = true := by
  cases e with
  | push s => intro ht; simp [relayStep, relayPush] at *; exact h ht
  | close => intro _; simp [relayStep, relayClose]
  | pull =>
    by_cases hterm : r.terminated
    · simp [relayStep, hterm, h hterm]
    · simp only [relayStep, hterm, if_false]
      cases hp : relayPull r.st with
      | yielded s st' =>
        intro ht
        exact absurd (by simpa using ht) hterm
      | terminated =>
        intro _
        simp only []
        exact ((relayPull_terminated_iff r.st).mp hp).2
      | suspended =>
        intro ht
        exact h ht

theorem relayFoldl_term_done (tr : List RelayEvent) (r : RelayRun)
    (h : r.terminated = true → r.st.done = true) :
    (tr.foldl relayStep r).terminated = true →
      (tr.foldl relayStep r).st.done = true := by
  induction tr generalizing r with
  | nil => exact h
  | cons e tr ih =>
    rw [List.foldl_cons]
    exact ih _ (relayStep_term_done e r h)

theorem relayPulls_keep_terminated (k : Nat) (r : RelayRun)
    (h : r.terminated = true) :
    ((List.replicate k RelayEvent.pull).foldl relayStep r).terminated = true := by
  induction k generalizing r with
  | zero => exact h
  | succ n ih =>
    rw [List.replicate_succ, List.foldl_cons]
    have hstep : relayStep r .pull = r := by simp [relayStep, h]
    rw [hstep]
    exact ih r h

theorem relayPulls_drain (n : Nat) (r : RelayRun)
    (hd : r.st.done = true) (hn : r.st.chunks.length ≤ n) :
    ((List.replicate (n + 1) RelayEvent.pull).foldl relayStep r).terminated = true := by
  induction n generalizing r with
  | zero =>
    have hc : r.st.chunks = [] := by
      cases hcc : r.st.chunks with
      | nil => rfl
      | cons a t => rw [hcc] at hn; simp at hn
    by_cases ht : r.terminated
    · exact relayPulls_keep_terminated 1 r ht
    · rw [List.replicate_succ, List.replicate_zero, List.foldl_cons, List.foldl_nil]
      simp [relayStep, ht, relayPull, hc, hd]
  | succ n ih =>
    by_cases ht : r.terminated
    · exact relayPulls_keep_terminated (n + 2) r ht
    · rw [List.replicate_succ, List.foldl_cons]
      cases hc : r.st.chunks with
      | nil =>
        have hstep : relayStep r .pull = { r with terminated := true } := by
          simp [relayStep, ht, relayPull, hc, hd]
        rw [hstep]
        exact relayPulls_keep_terminated (n + 1) _ rfl
      | cons s rest =>
        have hstep : relayStep r .pull =
            { r with st := { r.st with chunks := rest },
                     observed := r.observed ++ [s] } := by
          simp [relayStep, ht, relayPull, hc]
        rw [hstep]
        apply ih
        · exact hd
        · rw [hc] at hn
          simpa using Nat.le_of_succ_le_succ hn

/-- C3: for every interleaving of pushes, closes and pulls on one relay
instance, the consumer observes exactly the pushed fragments, each once, in
push (FIFO) order; `done` is set iff a close was performed; termination
happens only with `done` set, and — conversely — once a close was performed,
continued pulling terminates; while `done` is unset, a pull on an empty queue
suspends rather than terminates. -/
theorem claim3_relay :
    (∀ tr : List RelayEvent,
      (relayRun tr).observed ++ (relayRun tr).st.chunks = relayPushes tr) ∧
    (∀ tr : List RelayEvent,
      (relayRun tr).st.done = tr.any (fun e => e == .close)) ∧
    (∀ tr : List RelayEvent,
      (relayRun tr).terminated = true → (relayRun tr).st.done = true) ∧
    (∀ st : RelayState, st.chunks = [] → st.done = false →
      relayPull st = .suspended) ∧
    (∀ tr : List RelayEvent, RelayEvent.close ∈ tr →
      (relayRun (tr ++ List.replicate ((relayRun tr).st.chunks.length + 1)
        RelayEvent.pull)).terminated = true) := by
  refine ⟨?_, ?_, ?_, ?_, ?_⟩
  · intro tr
    have h := relayFoldl_fifo tr relayInit
    simpa [relayRun, relayInit] using h
  · intro tr
    have h := relayFoldl_done tr relayInit
    simpa [relayRun, relayInit] using h
  · intro tr
    exact relayFoldl_term_done tr relayInit (by simp [relayInit])
  · intro st hc hd
    simp [relayPull, hc, hd]
  · intro tr hmem
    unfold relayRun
    rw [List.foldl_append]
    apply relayPulls_drain
    · have h := relayFoldl_done tr relayInit
      simp only [relayRun, relayInit] at h ⊢
      rw [h]
      simp only [Bool.false_or]
      rw [List.any_eq_true]
      exact ⟨.close, hmem, rfl⟩
    · exact le_refl _

/-- Witness for C3 at a concrete interleaving. -/
theorem claim3_relay_witness :
    (relayRun [.push ['a'], .pull, .push ['b'], .close, .pull, .pull]).terminated
        = true ∧
    relayPull ⟨[], false⟩ = .suspended ∧
    (relayRun ([.push ['a'], .close] ++ List.replicate
      ((relayRun [.push ['a'], .close]).st.chunks.length + 1)
        RelayEvent.pull)).terminated = true := by
  refine ⟨by decide, claim3_relay.2.2.2.1 ⟨[], false⟩ rfl rfl, ?_⟩
  exact claim3_relay.2.2.2.2 [.push ['a'], .close] (by decide)

/-! ## ResponseDispatcher: `streamToChat` and `bufferToChat` -/

/-- A simplified AI-SDK stream part (`src/lib/rina/agent.ts` lines 136–140). -/
structure StreamPart where
  type : List Char
  text : Option (List Char) := none
  toolName : Option (List Char) := none
deriving DecidableEq

/-- JS truthiness of an optional string (`undefined` and `""` are falsy). -/
def truthy : Option (List Char) → Bool
  | none => false
  | some s => !s.isEmpty

/-- `TOOL_STATUS` from `constants.ts`: tool name → human-readable status phrase. -/
def TOOL_STATUS : List (List Char × List Char) :=
  [("webSearch".toList, "Searching the web...".toList),
   ("fetchWebpage".toList, "Fetching page...".toList),
   ("downloadArxivSource".toList, "Downloading paper source...".toList),
   ("listPaperFiles".toList, "Listing paper files...".toList),
   ("readPaperFile".toList, "Reading paper...".toList),
   ("bash".toList, "Running command...".toList),
   ("downloadFile".toList, "Downloading file...".toList)]

/-- The `TOOL_STATUS[toolName]` lookup. -/
def toolStatus (name : List Char) : Option (List Char) :=
  (TOOL_STATUS.find? (fun p => p.1 == name)).map Prod.snd

/-- One completed platform delivery performed by a dispatcher run:
a buffered segment chunk, a live streaming post (whose content is the
concatenation of the fragments the consumer drained, per the relay theorems),
or a tool-status notice. -/
inductive Delivery where
  | chunk (s : List Char)
  | live (s : List Char)
  | status (s : List Char)
deriving DecidableEq

/-- Loop state of `bufferToChat` (lines 262–291): deliveries made so far and
`currentTextBlock`. -/
structure BufferSt where
  posts : List Delivery
  currentTextBlock : List Char
deriving DecidableEq

/-- One iteration of `bufferToChat`'s `for await` loop: the four independent
`if` statements, in program order. -/
def bufferStep (st : BufferSt) (part : StreamPart) : BufferSt :=
  let st1 := if part.type == "text-start".toList then
      { st with currentTextBlock := [] } else st
  let st2 := if part.type == "text-delta".toList && truthy part.text then
      { st1 with currentTextBlock := st1.currentTextBlock ++ part.text.getD [] }
    else st1
  let st3 := if part.type == "text-end".toList then
      (if 0 < (trim st2.currentTextBlock).length then
        { posts := st2.posts ++ (splitLongText st2.currentTextBlock).map .chunk,
          currentTextBlock := [] }
       else { st2 with currentTextBlock := [] })
    else st2
  if part.type == "tool-input-start".toList && truthy part.toolName then
    match toolStatus (part.toolName.getD []) with
    | some status => { st3 with posts := st3.posts ++ [.status ("> ".toList ++ status)] }
    | none => st3
  else st3

/-- The trailing "post any remaining text" block of `bufferToChat`
(lines 293–298). -/
def bufferFinish (st : BufferSt) : List Delivery :=
  if 0 < (trim st.currentTextBlock).length then
    st.posts ++ (splitLongText st.currentTextBlock).map .chunk
  else st.posts

/-- `bufferToChat` (lines 262–299): deliveries of a whole run over an event
list, assuming every post succeeds. -/
def bufferToChat (events : List StreamPart) : List Delivery :=
  bufferFinish (events.foldl bufferStep ⟨[], []⟩)

/-- Loop state of `streamToChat` (lines 198–257): deliveries completed so far,
the `inTextBlock` flag, and the fragments pushed into the current relay
(the live post in flight; when awaited, it has consumed exactly these
fragments in order, by the relay theorems). On a `text-start` while a post is
in flight, the shared relay state is reset and the old post abandoned. -/
structure StreamSt where
  posts : List Delivery
  inTextBlock : Bool
  seg : List (List Char)
deriving DecidableEq

/-- One iteration of `streamToChat`'s `for await` loop. -/
def streamStep (st : StreamSt) (part : StreamPart) : StreamSt :=
  let st1 := if part.type == "text-start".toList then
      { st with inTextBlock := true, seg := [] } else st
  let st2 := if part.type == "text-delta".toList && st1.inTextBlock && truthy part.text then
      { st1 with seg := st1.seg ++ [part.text.getD []] } else st1
  let st3 := if part.type == "text-end".toList && st2.inTextBlock then
      { posts := st2.posts ++ [.live (concatAll st2.seg)], inTextBlock := false,
        seg := [] }
    else st2
  if part.type == "tool-input-start".toList && truthy part.toolName then
    match toolStatus (part.toolName.getD []) with
    | some status => { st3 with posts := st3.posts ++ [.status ("> ".toList ++ status)] }
    | none => st3
  else st3

/-- The trailing "close any unclosed stream" safety block (lines 251–257). -/
def streamFinish (st : StreamSt) : List Delivery :=
  if st.inTextBlock then st.posts ++ [.live (concatAll st.seg)] else st.posts

/-- `streamToChat` (lines 198–257): deliveries of a whole run over an event
list, assuming every post succeeds. -/
def streamToChat (events : List StreamPart) : List Delivery :=
  streamFinish (events.foldl streamStep ⟨[], false, []⟩)

/-- A `text-start` part. -/
def tsPart : StreamPart := ⟨"text-start".toList, none, none⟩

/-- A `text-delta` part carrying `s`. -/
def tdPart (s : List Char) : StreamPart := ⟨"text-delta".toList, some s, none⟩

/-- A `text-end` part. -/
def tePart : StreamPart := ⟨"text-end".toList, none, none⟩

/-- A `tool-input-start` part naming tool `n`. -/
def toolPart (n : List Char) : StreamPart := ⟨"tool-input-start".toList, none, some n⟩

theorem bufferStep_te (st : BufferSt) :
    bufferStep st tePart = ⟨bufferFinish st, []⟩ := by
  have h1 : ("text-end".toList == "text-start".toList) = false := by decide
  have h2 : ("text-end".toList == "text-delta".toList) = false := by decide
  have h3 : ("text-end".toList == "text-end".toList) = true := by decide
  have h4 : ("text-end".toList == "tool-input-start".toList) = false := by decide
  simp only [bufferStep, tePart, h1, h2, h3, h4, Bool.false_and, Bool.and_self,
    Bool.false_eq_true, if_false, if_true, bufferFinish]
  split <;> rfl

theorem streamFinish_step_te (st : StreamSt) :
    streamFinish (streamStep st tePart) = streamFinish st := by
  have h1 : ("text-end".toList == "text-start".toList) = false := by decide
  have h2 : ("text-end".toList == "text-delta".toList) = false := by decide
  have h3 : ("text-end".toList == "text-end".toList) = true := by decide
  have h4 : ("text-end".toList == "tool-input-start".toList) = false := by decide
  simp only [streamStep, tePart, h1, h2, h3, h4, Bool.false_and, Bool.true_and,
    Bool.false_eq_true, if_false, streamFinish]
  by_cases hin : st.inTextBlock
  · simp [hin]
  · simp [hin]

theorem bufferFinish_of_nil_block (posts : List Delivery) :
    bufferFinish ⟨posts, []⟩ = posts := by
  unfold bufferFinish
  simp [trim, trimStart, trimEnd]

/-- C4: a stream that ends while a prose segment is still open goes through
the same close logic as a `text-end` would have performed, on both the
live-streaming and the buffering path; in particular the stream
`[TextStart, TextDelta "partial", end-of-stream]` delivers `"partial"` on both
paths. -/
theorem claim4_endOfStreamRecovery :
    (∀ events : List StreamPart,
      bufferToChat events = bufferToChat (events ++ [tePart])) ∧
    (∀ events : List StreamPart,
      streamToChat events = streamToChat (events ++ [tePart])) ∧
    bufferToChat [tsPart, tdPart "partial".toList] =
      [.chunk "partial".toList] ∧
    streamToChat [tsPart, tdPart "partial".toList] =
      [.live "partial".toList] := by
  refine ⟨?_, ?_, by decide, by decide⟩
  · intro events
    unfold bufferToChat
    rw [List.foldl_append, List.foldl_cons, List.foldl_nil, bufferStep_te,
      bufferFinish_of_nil_block]
  · intro events
    unfold streamToChat
    rw [List.foldl_append, List.foldl_cons, List.foldl_nil, streamFinish_step_te]

/-! ## C5: TextStart while a segment is already open -/

theorem beq_excl {t a b : List Char} (hab : (a == b) = false)
    (ha : (t == a) = true) : (t == b) = false := by
  have ht : t = a := by simpa using ha
  subst ht
  exact hab

theorem bufferStep_ts (st : BufferSt) :
    bufferStep st tsPart = { st with currentTextBlock := [] } := by
  have h1 : ("text-start".toList == "text-start".toList) = true := by decide
  have h2 : ("text-start".toList == "text-delta".toList) = false := by decide
  have h3 : ("text-start".toList == "text-end".toList) = false := by decide
  have h4 : ("text-start".toList == "tool-input-start".toList) = false := by decide
  simp [bufferStep, tsPart, h1, h2, h3, h4]

theorem streamStep_ts (st : StreamSt) :
    streamStep st tsPart = { st with inTextBlock := true, seg := [] } := by
  have h1 : ("text-start".toList == "text-start".toList) = true := by decide
  have h2 : ("text-start".toList == "text-delta".toList) = false := by decide
  have h3 : ("text-start".toList == "text-end".toList) = false := by decide
  have h4 : ("text-start".toList == "tool-input-start".toList) = false := by decide
  simp [streamStep, tsPart, h1, h2, h3, h4]

/-- C5 counterexample: on the stream
`[TextStart, TextDelta "abc", TextStart, TextDelta "x", TextEnd]` the
already-received text `"abc"` is NOT delivered on either path — the buffering
path posts only `"x"`, and the streaming path's only completed live post
carries only `"x"` — contradicting the claim that the open segment is closed
as on `TextEnd` with its text delivered before the new segment opens. -/
theorem claim5_counterexample :
    bufferToChat [tsPart, tdPart "abc".toList, tsPart, tdPart "x".toList, tePart] =
      [.chunk "x".toList] ∧
    Delivery.chunk "abc".toList ∉
      bufferToChat [tsPart, tdPart "abc".toList, tsPart, tdPart "x".toList, tePart] ∧
    streamToChat [tsPart, tdPart "abc".toList, tsPart, tdPart "x".toList, tePart] =
      [.live "x".toList] ∧
    Delivery.live "abc".toList ∉
      streamToChat [tsPart, tdPart "abc".toList, tsPart, tdPart "x".toList, tePart] :=
  ⟨by decide, by decide, by decide, by decide⟩

/-- C5 amended: a `TextStart` arriving while a prose segment is already open is
treated as starting a fresh segment with NO close of the open one: the
buffering path resets the buffer, discarding the already-received delta text
without delivering it, and the streaming path resets the shared relay state
and opens a new post without awaiting the in-flight one; no anomaly-recovery
delivery is performed. -/
theorem claim5_amended (st : BufferSt) (st2 : StreamSt) :
    bufferStep st tsPart = { st with currentTextBlock := [] } ∧
    streamStep st2 tsPart = { st2 with inTextBlock := true, seg := [] } :=
  ⟨bufferStep_ts st, streamStep_ts st2⟩

/-! ## C9: sequential-delivery analysis (posts in flight) -/

/-- Begin/end of one platform post, in program order. -/
inductive Act where
  | openPost
  | closePost
deriving DecidableEq

/-- Change in the number of in-flight posts. -/
def actDelta : Act → Int
  | .openPost => 1
  | .closePost => -1

/-- `n` sequential posts, each awaited before the next begins. -/
def serialPosts : Nat → List Act
  | 0 => []
  | n + 1 => Act.openPost :: Act.closePost :: serialPosts n

/-- Net change of in-flight posts over a run of acts. -/
def sumDelta (acts : List Act) : Int := (acts.map actDelta).sum

/-- Largest number of posts simultaneously in flight over a run of acts,
starting from `cur` posts in flight (the maximum over all prefix points). -/
def maxInFlightFrom (cur : Int) : List Act → Int
  | [] => cur
  | a :: rest => max cur (maxInFlightFrom (cur + actDelta a) rest)

/-- Largest number of posts simultaneously in flight, starting idle. -/
def maxInFlight (acts : List Act) : Int := maxInFlightFrom 0 acts

/-- Acts of the `text-end` flush: each chunk of the split is posted with an
inline await. -/
def flushActs (b : List Char) : List Act :=
  if 0 < (trim b).length then serialPosts (splitLongText b).length else []

/-- Acts of the tool-status handler: a recognized status is posted with an
inline await. -/
def statusActs (part : StreamPart) : List Act :=
  if part.type == "tool-input-start".toList && truthy part.toolName then
    (match toolStatus (part.toolName.getD []) with
     | some _ => [Act.openPost, Act.closePost]
     | none => ([] : List Act))
  else ([] : List Act)

/-- `currentTextBlock` after one `bufferToChat` iteration. -/
def bufferPartBlock (block : List Char) (part : StreamPart) : List Char :=
  let b1 := if part.type == "text-start".toList then [] else block
  let b2 := if part.type == "text-delta".toList && truthy part.text then
      b1 ++ part.text.getD [] else b1
  if part.type == "text-end".toList then [] else b2

/-- Per-part act trace of `bufferToChat`. -/
def bufferPartActs (block : List Char) (part : StreamPart) : List Act :=
  let b1 := if part.type == "text-start".toList then [] else block
  let b2 := if part.type == "text-delta".toList && truthy part.text then
      b1 ++ part.text.getD [] else b1
  (if part.type == "text-end".toList then flushActs b2 else []) ++ statusActs part

/-- Act trace of a `bufferToChat` run (the trailing flush included). -/
def bufferActsGo (block : List Char) : List StreamPart → List Act
  | [] => flushActs block
  | part :: rest =>
    bufferPartActs block part ++ bufferActsGo (bufferPartBlock block part) rest

/-- Act trace of `bufferToChat` from the initial empty buffer. -/
def bufferActs (events : List StreamPart) : List Act := bufferActsGo [] events

/-- Per-part act trace of `streamToChat`: `text-start` begins the live post
(not awaited), `text-end` awaits it, and a recognized tool status is posted
with an inline await — even while the live post is still in flight. -/
def streamPartActs (inTB : Bool) (part : StreamPart) : List Act :=
  let a1 := if part.type == "text-start".toList then [Act.openPost]
    else ([] : List Act)
  let in1 := if part.type == "text-start".toList then true else inTB
  let a2 := if part.type == "text-end".toList && in1 then [Act.closePost]
    else ([] : List Act)
  a1 ++ a2 ++ statusActs part

/-- `inTextBlock` after one `streamToChat` iteration. -/
def streamPartInTB (inTB : Bool) (part : StreamPart) : Bool :=
  let in1 := if part.type == "text-start".toList then true else inTB
  if part.type == "text-end".toList && in1 then false else in1

/-- Act trace of a `streamToChat` run (the safety close included). -/
def streamActsGo (inTB : Bool) : List StreamPart → List Act
  | [] => if inTB then [Act.closePost] else []
  | part :: rest => streamPartActs inTB part ++ streamActsGo (streamPartInTB inTB part) rest

/-- Act trace of `streamToChat` from the initial idle state. -/
def streamActs (events : List StreamPart) : List Act := streamActsGo false events

/-- Event lists in which no `text-start` and no deliverable tool-status event
arrives while a prose segment is open. -/
def streamSeqOK (inTB : Bool) : List StreamPart → Bool
  | [] => true
  | part :: rest =>
    let isStart := part.type == "text-start".toList
    let isTool := part.type == "tool-input-start".toList && truthy part.toolName &&
      (toolStatus (part.toolName.getD [])).isSome
    if (isStart || isTool) && inTB then false
    else streamSeqOK (streamPartInTB inTB part) rest

theorem sumDelta_nil : sumDelta [] = 0 := rfl

theorem sumDelta_append (l1 l2 : List Act) :
    sumDelta (l1 ++ l2) = sumDelta l1 + sumDelta l2 := by
  simp [sumDelta]

theorem sumDelta_serialPosts (n : Nat) : sumDelta (serialPosts n) = 0 := by
  induction n with
  | zero => rfl
  | succ n ih =>
    simp only [serialPosts, sumDelta, List.map_cons, List.sum_cons, actDelta] at *
    omega

theorem le_maxInFlightFrom (c : Int) (l : List Act) : c ≤ maxInFlightFrom c l := by
  cases l with
  | nil => exact le_refl c
  | cons a rest => exact le_max_left _ _

theorem maxInFlightFrom_append_le {b c : Int} {l1 l2 : List Act}
    (h1 : maxInFlightFrom c l1 ≤ b)
    (h2 : maxInFlightFrom (c + sumDelta l1) l2 ≤ b) :
    maxInFlightFrom c (l1 ++ l2) ≤ b := by
  induction l1 generalizing c with
  | nil =>
    simp only [sumDelta, List.map_nil, List.sum_nil, add_zero] at h2
    simpa using h2
  | cons a t ih =>
    simp only [List.cons_append, maxInFlightFrom] at h1 ⊢
    rw [max_le_iff] at h1 ⊢
    refine ⟨h1.1, ih h1.2 ?_⟩
    have hs : sumDelta (a :: t) = actDelta a + sumDelta t := by
      simp [sumDelta]
    rw [hs] at h2
    rw [← add_assoc] at h2
    exact h2

theorem maxInFlightFrom_serialPosts (n : Nat) :
    maxInFlightFrom 0 (serialPosts n) ≤ 1 := by
  induction n with
  | zero => simp [serialPosts, maxInFlightFrom]
  | succ n ih =>
    simp only [serialPosts, maxInFlightFrom, actDelta]
    norm_num
    exact ih

theorem sumDelta_flushActs (b : List Char) : sumDelta (flushActs b) = 0 := by
  unfold flushActs
  split
  · exact sumDelta_serialPosts _
  · rfl

theorem maxInFlightFrom_flushActs (b : List Char) :
    maxInFlightFrom 0 (flushActs b) ≤ 1 := by
  unfold flushActs
  split
  · exact maxInFlightFrom_serialPosts _
  · norm_num [maxInFlightFrom]

theorem sumDelta_statusActs (part : StreamPart) : sumDelta (statusActs part) = 0 := by
  unfold statusActs
  split
  · split <;> rfl
  · rfl

theorem maxInFlightFrom_statusActs (part : StreamPart) :
    maxInFlightFrom 0 (statusActs part) ≤ 1 := by
  have hpair : maxInFlightFrom 0 [Act.openPost, Act.closePost] ≤ 1 := by
    norm_num [maxInFlightFrom, actDelta]
  have hnil : maxInFlightFrom 0 ([] : List Act) ≤ 1 := by
    norm_num [maxInFlightFrom]
  unfold statusActs
  split
  · split
    · exact hpair
    · exact hnil
  · exact hnil

theorem bufferPartActs_sum (block : List Char) (part : StreamPart) :
    sumDelta (bufferPartActs block part) = 0 := by
  unfold bufferPartActs
  rw [sumDelta_append, sumDelta_statusActs, add_zero]
  split
  · exact sumDelta_flushActs _
  · rfl

theorem bufferPartActs_max (block : List Char) (part : StreamPart) :
    maxInFlightFrom 0 (bufferPartActs block part) ≤ 1 := by
  unfold bufferPartActs
  apply maxInFlightFrom_append_le
  · split
    · exact maxInFlightFrom_flushActs _
    · norm_num [maxInFlightFrom]
  · have hz : sumDelta (if (part.type == "text-end".toList) = true then
        flushActs (if (part.type == "text-delta".toList && truthy part.text) = true then
          (if (part.type == "text-start".toList) = true then [] else block) ++
            part.text.getD []
        else if (part.type == "text-start".toList) = true then [] else block)
      else []) = 0 := by
      split
      · exact sumDelta_flushActs _
      · rfl
    rw [hz, zero_add]
    exact maxInFlightFrom_statusActs part

theorem bufferActsGo_bound (events : List StreamPart) : ∀ block : List Char,
    maxInFlightFrom 0 (bufferActsGo block events) ≤ 1 := by
  induction events with
  | nil =>
    intro block
    exact maxInFlightFrom_flushActs block
  | cons part rest ih =>
    intro block
    unfold bufferActsGo
    apply maxInFlightFrom_append_le
    · exact bufferPartActs_max block part
    · rw [bufferPartActs_sum, zero_add]
      exact ih _

/-- Number of live posts in flight implied by the `inTextBlock` flag. -/
def tbDepth (b : Bool) : Int := if b then 1 else 0

theorem streamPart_step (inTB : Bool) (part : StreamPart)
    (hOK : (((part.type == "text-start".toList) ||
      ((part.type == "tool-input-start".toList && truthy part.toolName) &&
        (toolStatus (part.toolName.getD [])).isSome)) && inTB) = false) :
    maxInFlightFrom (tbDepth inTB) (streamPartActs inTB part) ≤ 1 ∧
    tbDepth inTB + sumDelta (streamPartActs inTB part) =
      tbDepth (streamPartInTB inTB part) := by
  by_cases hS : (part.type == "text-start".toList) = true
  · have hE : (part.type == "text-end".toList) = false := beq_excl (by decide) hS
    have hT : (part.type == "tool-input-start".toList) = false := beq_excl (by decide) hS
    have hin : inTB = false := by
      rw [hS] at hOK
      simpa using hOK
    subst hin
    simp only [streamPartActs, streamPartInTB, statusActs, hS, hE, hT,
      Bool.false_and, Bool.and_false, Bool.true_and]
    norm_num [tbDepth, maxInFlightFrom, sumDelta, actDelta]
  · have hS' : (part.type == "text-start".toList) = false := by simpa using hS
    by_cases hE : (part.type == "text-end".toList) = true
    · have hT : (part.type == "tool-input-start".toList) = false := beq_excl (by decide) hE
      cases hin : inTB with
      | false =>
        simp only [streamPartActs, streamPartInTB, statusActs, hS', hE, hT,
          Bool.false_and, Bool.and_false, Bool.true_and]
        norm_num [tbDepth, maxInFlightFrom, sumDelta, actDelta]
      | true =>
        simp only [streamPartActs, streamPartInTB, statusActs, hS', hE, hT,
          Bool.false_and, Bool.and_false, Bool.true_and]
        norm_num [tbDepth, maxInFlightFrom, sumDelta, actDelta]
    · have hE' : (part.type == "text-end".toList) = false := by simpa using hE
      by_cases hT : (part.type == "tool-input-start".toList && truthy part.toolName) = true
      · cases hst : toolStatus (part.toolName.getD []) with
        | some status =>
          have hin : inTB = false := by
            rw [hS', hT, hst] at hOK
            simpa using hOK
          subst hin
          simp only [streamPartActs, streamPartInTB, statusActs, hS', hE', hT, hst,
            Bool.false_and, Bool.and_false, Bool.true_and]
          norm_num [tbDepth, maxInFlightFrom, sumDelta, actDelta]
        | none =>
          cases inTB <;> (
            simp only [streamPartActs, streamPartInTB, statusActs, hS', hE', hT, hst,
              Bool.false_and, Bool.and_false, Bool.true_and]
            norm_num [tbDepth, maxInFlightFrom, sumDelta, actDelta])
      · have hT' : (part.type == "tool-input-start".toList && truthy part.toolName)
            = false := by simpa using hT
        cases inTB <;> (
          simp only [streamPartActs, streamPartInTB, statusActs, hS', hE', hT',
            Bool.false_and, Bool.and_false, Bool.true_and]
          norm_num [tbDepth, maxInFlightFrom, sumDelta, actDelta])

theorem streamActsGo_bound (events : List StreamPart) : ∀ inTB : Bool,
    streamSeqOK inTB events = true →
    maxInFlightFrom (tbDepth inTB) (streamActsGo inTB events) ≤ 1 := by
  induction events with
  | nil =>
    intro inTB _
    cases inTB <;> norm_num [streamActsGo, maxInFlightFrom, actDelta, tbDepth]
  | cons part rest ih =>
    intro inTB hOK
    simp only [streamSeqOK] at hOK
    split at hOK
    · exact absurd hOK (by simp)
    · next hcond =>
      have hc' : (((part.type == "text-start".toList) ||
          ((part.type == "tool-input-start".toList && truthy part.toolName) &&
            (toolStatus (part.toolName.getD [])).isSome)) && inTB) = false := by
        simpa using hcond
      unfold streamActsGo
      apply maxInFlightFrom_append_le
      · exact (streamPart_step inTB part hc').1
      · rw [(streamPart_step inTB part hc').2]
        exact ih _ hOK

/-- C9 counterexample: in a dispatcher run on the live-streaming path, the
stream `[TextStart, TextDelta "a", ToolInvocationStart webSearch, TextEnd]`
has the tool-status notice posted while the segment's live post is still in
flight: two deliveries are in flight concurrently (in-flight depth reaches 2),
contradicting the claim that every delivery completes before the next begins. -/
theorem claim9_counterexample :
    streamActs [tsPart, tdPart "a".toList, toolPart "webSearch".toList, tePart] =
      [Act.openPost, Act.openPost, Act.closePost, Act.closePost] ∧
    maxInFlight (streamActs [tsPart, tdPart "a".toList,
      toolPart "webSearch".toList, tePart]) = 2 :=
  ⟨by decide, by decide⟩

/-- C9 amended: within one dispatcher run, deliveries on the buffering path
are strictly sequential (never more than one in flight); on the live-streaming
path the same holds provided no tool-status notice (and no `TextStart`) occurs
while a segment's live post is in flight — in that excepted case the notice is
posted concurrently with the open segment's live post. -/
theorem claim9_amended :
    (∀ events : List StreamPart, maxInFlight (bufferActs events) ≤ 1) ∧
    (∀ events : List StreamPart, streamSeqOK false events = true →
      maxInFlight (streamActs events) ≤ 1) := by
  constructor
  · intro events
    exact bufferActsGo_bound events []
  · intro events hOK
    have h := streamActsGo_bound events false hOK
    simpa [maxInFlight, streamActs, tbDepth] using h

/-- Witness for the amended C9 at a concrete well-formed stream. -/
theorem claim9_amended_witness :
    maxInFlight (streamActs [tsPart, tdPart "a".toList, tePart,
      toolPart "webSearch".toList]) ≤ 1 :=
  claim9_amended.2 [tsPart, tdPart "a".toList, tePart,
    toolPart "webSearch".toList] (by decide)

/-! ## HistoryAssembler: `convertThreadHistory` (`src/lib/rina/tools/web.ts`) -/

/-- `MAX_INBOUND_ATTACHMENTS` from `constants.ts`. -/
def MAX_INBOUND_ATTACHMENTS : Nat := 4

/-- `MAX_INBOUND_IMAGE_BYTES` from `constants.ts`. -/
def MAX_INBOUND_IMAGE_BYTES : Nat := 5 * (1024 * 1024)

/-- `MAX_INBOUND_FILE_BYTES` from `constants.ts`. -/
def MAX_INBOUND_FILE_BYTES : Nat := 10 * (1024 * 1024)

/-- `SUPPORTED_FILE_MIMES` from `constants.ts`. -/
def SUPPORTED_FILE_MIMES : List (List Char) :=
  ["application/pdf".toList, "text/plain".toList]

/-- `IMAGE_EXT_TO_MIME` from `constants.ts`. -/
def IMAGE_EXT_TO_MIME : List (List Char × List Char) :=
  [("png".toList, "image/png".toList), ("jpg".toList, "image/jpeg".toList),
   ("jpeg".toList, "image/jpeg".toList), ("gif".toList, "image/gif".toList),
   ("webp".toList, "image/webp".toList), ("bmp".toList, "image/bmp".toList),
   ("tif".toList, "image/tiff".toList), ("tiff".toList, "image/tiff".toList),
   ("svg".toList, "image/svg+xml".toList)]

/-- Lookup in a record-as-pair-list (`REC[key] ?? null`). -/
def lookupPairs (m : List (List Char × List Char)) (k : List Char) :
    Option (List Char) :=
  (m.find? (fun p => p.1 == k)).map Prod.snd

/-- The author fields used by `authorPrefix` and `convertThreadHistory`. -/
structure Author where
  isMe : Bool
  userId : Option (List Char) := none
  userName : Option (List Char) := none
  fullName : Option (List Char) := none
deriving DecidableEq

/-- A stored attachment. The effectful `readAttachmentData` resolution
(Buffer / Blob / `fetchData()`) is abstracted to its result: `dataBytes` is
the byte length of the successfully read data, `none` when the read returns
null or throws (both are skipped identically in history). -/
structure Attachment where
  atype : List Char
  mimeType : Option (List Char) := none
  dataBytes : Option Nat := none
  url : Option (List Char) := none
  name : Option (List Char) := none
deriving DecidableEq

/-- A stored thread message as consumed by `convertThreadHistory`. -/
structure StoredMsg where
  id : List Char
  author : Author
  text : Option (List Char) := none
  attachments : Option (List Attachment) := none
deriving DecidableEq

/-- JS `String.prototype.startsWith`. -/
def startsWith (pre l : List Char) : Bool := pre.isPrefixOf l

/-- `isSupportedMime`: a non-empty MIME that is `image/*` or a supported file
MIME. -/
def isSupportedMime : Option (List Char) → Bool
  | none => false
  | some mime =>
    if mime.isEmpty then false
    else startsWith "image/".toList mime || SUPPORTED_FILE_MIMES.contains mime

/-- ASCII alphanumeric test (the `[a-zA-Z0-9]` class of `getFileExtension`). -/
def isAsciiAlphanum (c : Char) : Bool :=
  ('a' ≤ c && c ≤ 'z') || ('A' ≤ c && c ≤ 'Z') || ('0' ≤ c && c ≤ '9')

/-- `getFileExtension`: the suffix matched by `/\.([a-zA-Z0-9]+)$/`,
lowercased. -/
def getFileExtension (value : List Char) : Option (List Char) :=
  let rev := value.reverse
  let ext := rev.takeWhile isAsciiAlphanum
  if ext.isEmpty then none
  else
    match rev.drop ext.length with
    | '.' :: _ => some (lowerAscii ext.reverse)
    | _ => none

/-- The suffix of `l` after the first occurrence of `pat`, or `none`. -/
def afterSubstr (l pat : List Char) : Option (List Char) :=
  match l with
  | [] => if pat.isEmpty then some [] else none
  | _ :: t => if pat.isPrefixOf l then some (l.drop pat.length) else afterSubstr t pat

/-- `new URL(url).pathname`, modelled for the `scheme://host/path?query#frag`
shape: `none` when there is no `://` separator (the `URL` constructor throws,
which the caller catches into `null`); otherwise the remainder from the first
`/` after the host, cut at the first `?` or `#`. -/
def urlPathname (url : List Char) : Option (List Char) :=
  (afterSubstr url "://".toList).map (fun rest =>
    (rest.dropWhile (fun c => !(c == '/'))).takeWhile
      (fun c => !(c == '?') && !(c == '#')))

/-- `inferMimeTypeFromUrl`. -/
def inferMimeTypeFromUrl (url : List Char) : Option (List Char) :=
  match urlPathname url with
  | none => none
  | some path =>
    match getFileExtension path with
    | none => none
    | some ext => lookupPairs IMAGE_EXT_TO_MIME ext

/-- An AI-SDK media part as built by `attachmentToMediaPart` (the raw bytes
are represented by their length). -/
inductive MediaPart where
  | image (size : Nat) (mediaType : List Char)
  | file (size : Nat) (mediaType : List Char) (filename : Option (List Char))
deriving DecidableEq

/-- `attachmentToMediaPart` (lines 143–179): `none` when the attachment is
unsupported, too large, or unreadable. -/
def attachmentToMediaPart (a : Attachment) : Option MediaPart :=
  match a.dataBytes with
  | none => none
  | some size =>
    let rawMime := a.mimeType.getD []
    let isImage := startsWith "image/".toList rawMime
    let isPdfOrText := SUPPORTED_FILE_MIMES.contains rawMime
    if isImage then
      if MAX_INBOUND_IMAGE_BYTES < size then none
      else
        let fallback := inferMimeTypeFromUrl (a.url.getD [])
        let mimeType := if !rawMime.isEmpty then rawMime
          else match fallback with
            | some f => if f.isEmpty then "image/png".toList else f
            | none => "image/png".toList
        some (.image size mimeType)
    else if isPdfOrText then
      if MAX_INBOUND_FILE_BYTES < size then none
      else some (.file size rawMime a.name)
    else
      match inferMimeTypeFromUrl (a.url.getD []) with
      | some inferred =>
        if startsWith "image/".toList inferred then
          if MAX_INBOUND_IMAGE_BYTES < size then none
          else some (.image size inferred)
        else none
      | none => none

/-- `extractMediaParts` (lines 276–294): supported candidates, first
`MAX_INBOUND_ATTACHMENTS`, unreadable ones skipped silently. -/
def extractMediaParts (m : StoredMsg) : List MediaPart :=
  let candidates := (m.attachments.getD []).filter
    (fun a => isSupportedMime a.mimeType || a.atype == "image".toList)
  (candidates.take MAX_INBOUND_ATTACHMENTS).filterMap attachmentToMediaPart

/-- JS `a || b` for an optional string `a`. -/
def orElseStr (a : Option (List Char)) (b : List Char) : List Char :=
  match a with
  | some s => if s.isEmpty then b else s
  | none => b

/-- JS `a || b` for a string `a`. -/
def orStr (a b : List Char) : List Char := if a.isEmpty then b else a

/-- `authorPrefix` (lines 186–194). -/
def authorPrefix (author : Author) : List Char :=
  if author.isMe then []
  else
    let name := orElseStr author.userName (orElseStr author.fullName [])
    let id := author.userId.getD []
    if !name.isEmpty && !id.isEmpty then
      "[user: @".toList ++ name ++ " (".toList ++ id ++ ")] ".toList
    else if !id.isEmpty then "[user: ".toList ++ id ++ "] ".toList
    else if !name.isEmpty then "[user: @".toList ++ name ++ "] ".toList
    else []

/-- Conversation roles produced by the assembler. -/
inductive Role where
  | user
  | assistant
deriving DecidableEq

/-- A part of a part-array `UserContent`. -/
inductive ContentPart where
  | text (s : List Char)
  | media (p : MediaPart)
deriving DecidableEq

/-- A `ModelMessage` content: a plain string or a part array. -/
inductive Content where
  | str (s : List Char)
  | parts (ps : List ContentPart)
deriving DecidableEq

/-- An assembled `ModelMessage`. -/
structure Msg where
  role : Role
  content : Content
deriving DecidableEq

/-- The turns one stored message contributes to the pre-merge history
(the loop body of `convertThreadHistory`, lines 315–376). -/
def msgTurns (m : StoredMsg) : List Msg :=
  let text := trim (m.text.getD [])
  if text.isEmpty && (m.attachments.getD []).isEmpty then []
  else if m.author.isMe then
    (if !text.isEmpty then [⟨.assistant, .str text⟩] else []) ++
    (let botMediaParts := extractMediaParts m
     if !botMediaParts.isEmpty then
       [⟨.user, .parts (.text "[This is the file you just posted to the chat.]".toList ::
          botMediaParts.map .media)⟩]
     else [])
  else
    let mediaParts := extractMediaParts m
    let pfx := authorPrefix m.author
    let labeledText := trim (pfx ++ text)
    if !mediaParts.isEmpty then
      [⟨.user, .parts (.text (orStr labeledText "See attached file(s).".toList) ::
         mediaParts.map .media)⟩]
    else
      [⟨.user, .str (orStr labeledText "(empty message)".toList)⟩]

/-- The pre-merge history loop: skip the triggering message, then append each
remaining message's turns in log order. -/
def historyPre (msgs : List StoredMsg) (currentId : List Char) : List Msg :=
  match msgs with
  | [] => []
  | m :: rest =>
    (if m.id == currentId then [] else msgTurns m) ++ historyPre rest currentId

/-- Normalise a content to a part array (the user-merge branch). -/
def toParts : Content → List ContentPart
  | .str s => [.text s]
  | .parts ps => ps

/-- `typeof content === "string" ? content : ""` (the assistant-merge branch). -/
def strOf : Content → List Char
  | .str s => s
  | .parts _ => []

/-- `[prevText, curText].filter(Boolean).join("\n\n")`. -/
def joinTexts (a b : List Char) : List Char :=
  if a.isEmpty then b
  else if b.isEmpty then a
  else a ++ ('\n' :: '\n' :: b)

/-- One iteration of the merge pass (lines 381–404): collapse into the last
merged turn when the roles coincide, else push. -/
def mergeStep (acc : List Msg) (msg : Msg) : List Msg :=
  match acc.getLast? with
  | some prev =>
    if prev.role == msg.role && prev.role == Role.user then
      acc.dropLast ++
        [⟨.user, .parts (toParts prev.content ++ toParts msg.content)⟩]
    else if prev.role == msg.role && prev.role == Role.assistant then
      acc.dropLast ++
        [⟨.assistant, .str (joinTexts (strOf prev.content) (strOf msg.content))⟩]
    else acc ++ [msg]
  | none => acc ++ [msg]

/-- The whole merge pass. -/
def mergeHistory (h : List Msg) : List Msg := h.foldl mergeStep []

/-- `convertThreadHistory` (lines 309–410). -/
def convertThreadHistory (msgs : List StoredMsg) (currentId : List Char) :
    List Msg :=
  mergeHistory (historyPre msgs currentId)

/-- Concatenation of every message's turns, in log order. -/
def turnsOfAll (msgs : List StoredMsg) : List Msg :=
  match msgs with
  | [] => []
  | m :: rest => msgTurns m ++ turnsOfAll rest

theorem mergeStep_nil (msg : Msg) : mergeStep [] msg = [msg] := rfl

theorem mergeStep_snoc (front : List Msg) (prev msg : Msg) :
    mergeStep (front ++ [prev]) msg =
      (if prev.role == msg.role && prev.role == Role.user then
        front ++ [⟨.user, .parts (toParts prev.content ++ toParts msg.content)⟩]
      else if prev.role == msg.role && prev.role == Role.assistant then
        front ++
          [⟨.assistant, .str (joinTexts (strOf prev.content) (strOf msg.content))⟩]
      else (front ++ [prev]) ++ [msg]) := by
  unfold mergeStep
  rw [List.getLast?_concat, List.dropLast_concat]

theorem chain'_roles_concat (front : List Msg) (a b : Msg)
    (h : List.Chain' (fun x y : Msg => x.role ≠ y.role) (front ++ [a]))
    (hr : b.role = a.role) :
    List.Chain' (fun x y : Msg => x.role ≠ y.role) (front ++ [b]) := by
  rw [List.chain'_append] at h ⊢
  obtain ⟨h1, _, h3⟩ := h
  refine ⟨h1, List.chain'_singleton _, ?_⟩
  intro x hx y hy
  simp only [List.head?_cons, Option.mem_def, Option.some.injEq] at hy
  subst hy
  rw [hr]
  exact h3 x hx a (by simp)

theorem mergeFold_alternating (h : List Msg) : ∀ acc : List Msg,
    List.Chain' (fun x y : Msg => x.role ≠ y.role) acc →
    List.Chain' (fun x y : Msg => x.role ≠ y.role) (h.foldl mergeStep acc) := by
  induction h with
  | nil => exact fun acc hacc => hacc
  | cons msg rest ih =>
    intro acc hacc
    rw [List.foldl_cons]
    apply ih
    rcases List.eq_nil_or_concat acc with rfl | ⟨front, prev, rfl⟩
    · rw [mergeStep_nil]
      exact List.chain'_singleton _
    · rw [List.concat_eq_append] at hacc ⊢
      rw [mergeStep_snoc]
      by_cases hu : (prev.role == msg.role && prev.role == Role.user) = true
      · rw [if_pos hu]
        have hpu : prev.role = Role.user := eq_of_beq (Bool.and_elim_right hu)
        exact chain'_roles_concat front prev _ hacc (by rw [hpu])
      · rw [if_neg (by simpa using hu)]
        by_cases ha : (prev.role == msg.role && prev.role == Role.assistant) = true
        · rw [if_pos ha]
          have hpa : prev.role = Role.assistant := eq_of_beq (Bool.and_elim_right ha)
          exact chain'_roles_concat front prev _ hacc (by rw [hpa])
        · rw [if_neg (by simpa using ha)]
          have hne : prev.role ≠ msg.role := by
            intro heq
            have hb : (prev.role == msg.role) = true := beq_iff_eq.mpr heq
            cases hr : prev.role with
            | user => exact hu (by rw [hb, hr]; rfl)
            | assistant => exact ha (by rw [hb, hr]; rfl)
          rw [List.chain'_append]
          rw [List.chain'_append] at hacc
          refine ⟨List.chain'_append.mpr ⟨hacc.1, hacc.2.1, hacc.2.2⟩,
            List.chain'_singleton _, ?_⟩
          intro x hx y hy
          rw [List.getLast?_concat] at hx
          simp only [Option.mem_def, Option.some.injEq] at hx
          simp only [List.head?_cons, Option.mem_def, Option.some.injEq] at hy
          subst hx
          subst hy
          exact hne

/-- C6: the merged output of `convertThreadHistory` never contains two
adjacent turns of the same role; consecutive user turns are collapsed into one
turn whose content concatenates their part arrays in order, and consecutive
assistant turns are collapsed into one turn joining their texts with a
blank-line separator. -/
theorem claim6_history_alternation (msgs : List StoredMsg) (cid : List Char) :
    List.Chain' (fun x y : Msg => x.role ≠ y.role)
      (convertThreadHistory msgs cid) ∧
    (∀ c1 c2 : Content,
      mergeHistory [⟨.user, c1⟩, ⟨.user, c2⟩] =
        [⟨.user, .parts (toParts c1 ++ toParts c2)⟩]) ∧
    (∀ c1 c2 : Content,
      mergeHistory [⟨.assistant, c1⟩, ⟨.assistant, c2⟩] =
        [⟨.assistant, .str (joinTexts (strOf c1) (strOf c2))⟩]) := by
  refine ⟨?_, fun c1 c2 => rfl, fun c1 c2 => rfl⟩
  exact mergeFold_alternating (historyPre msgs cid) [] List.chain'_nil

/-- C7: no turn of `convertThreadHistory`'s output derives from the message
with the triggering id — it is skipped — and the remaining messages' turns
appear in log order: the pre-merge history is exactly the concatenation of
`msgTurns` over the log with the triggering message filtered out, and the
output is its merge. -/
theorem claim7_history_exclusion (msgs : List StoredMsg) (cid : List Char) :
    historyPre msgs cid =
      turnsOfAll (msgs.filter (fun m => !(m.id == cid))) ∧
    convertThreadHistory msgs cid =
      mergeHistory (turnsOfAll (msgs.filter (fun m => !(m.id == cid)))) := by
  have h : ∀ ms : List StoredMsg,
      historyPre ms cid = turnsOfAll (ms.filter (fun m => !(m.id == cid))) := by
    intro ms
    induction ms with
    | nil => rfl
    | cons m rest ih =>
      by_cases hid : (m.id == cid) = true
      · simp [historyPre, List.filter_cons, hid, ih]
      · have hid' : (m.id == cid) = false := by simpa using hid
        simp [historyPre, List.filter_cons, hid', ih, turnsOfAll]
  refine ⟨h msgs, ?_⟩
  unfold convertThreadHistory
  rw [h msgs]

/-- Invariant of assembled turns: non-empty content, and assistant turns are
always plain non-empty strings. -/
def GoodTurn (t : Msg) : Prop :=
  match t.role, t.content with
  | Role.assistant, Content.str s => s ≠ []
  | Role.assistant, Content.parts _ => False
  | Role.user, Content.str s => s ≠ []
  | Role.user, Content.parts ps => ps ≠ []

/-- Non-empty content. -/
def contentNonempty : Content → Prop
  | .str s => s ≠ []
  | .parts ps => ps ≠ []

theorem goodTurn_contentNonempty (t : Msg) (h : GoodTurn t) :
    contentNonempty t.content := by
  obtain ⟨role, content⟩ := t
  cases role <;> cases content <;>
    simp [GoodTurn, contentNonempty] at h ⊢ <;> exact h

theorem nonempty_of_isEmpty_false {s : List Char} (h : s.isEmpty = false) :
    s ≠ [] := by
  cases s with
  | nil => simp at h
  | cons a t => exact List.cons_ne_nil a t

theorem msgTurns_good (m : StoredMsg) : ∀ t ∈ msgTurns m, GoodTurn t := by
  intro t ht
  simp only [msgTurns] at ht
  split at ht
  · simp at ht
  · split at ht
    · rw [List.mem_append] at ht
      rcases ht with ht | ht
      · split at ht
        · next hne =>
          simp only [List.mem_singleton] at ht
          subst ht
          simp only [GoodTurn]
          exact nonempty_of_isEmpty_false (by simpa using hne)
        · simp at ht
      · split at ht
        · simp only [List.mem_singleton] at ht
          subst ht
          simp only [GoodTurn]
          exact List.cons_ne_nil _ _
        · simp at ht
    · split at ht
      · simp only [List.mem_singleton] at ht
        subst ht
        simp only [GoodTurn]
        exact List.cons_ne_nil _ _
      · simp only [List.mem_singleton] at ht
        subst ht
        simp only [GoodTurn]
        unfold orStr
        split
        · exact List.cons_ne_nil _ _
        · next hlab =>
          exact nonempty_of_isEmpty_false (by simpa using hlab)

theorem mergeStep_good (acc : List Msg) (msg : Msg)
    (hacc : ∀ t ∈ acc, GoodTurn t) (hmsg : GoodTurn msg) :
    ∀ t ∈ mergeStep acc msg, GoodTurn t := by
  rcases List.eq_nil_or_concat acc with rfl | ⟨front, prev, rfl⟩
  · rw [mergeStep_nil]
    intro t ht
    simp only [List.mem_singleton] at ht
    subst ht
    exact hmsg
  · rw [List.concat_eq_append] at hacc ⊢
    rw [mergeStep_snoc]
    have hprev : GoodTurn prev := hacc prev (by simp)
    by_cases hu : (prev.role == msg.role && prev.role == Role.user) = true
    · rw [if_pos hu]
      intro t ht
      rw [List.mem_append] at ht
      rcases ht with ht | ht
      · exact hacc t (by rw [List.mem_append]; exact Or.inl ht)
      · simp only [List.mem_singleton] at ht
        subst ht
        simp only [GoodTurn]
        have hpu : prev.role = Role.user := eq_of_beq (Bool.and_elim_right hu)
        have h1 : toParts prev.content ≠ [] := by
          obtain ⟨pr, pc⟩ := prev
          simp only at hpu
          subst hpu
          cases pc with
          | str s => simp [toParts]
          | parts ps =>
            simp only [GoodTurn] at hprev
            simpa [toParts] using hprev
        intro hh
        exact h1 (List.append_eq_nil.mp hh).1
    · rw [if_neg (by simpa using hu)]
      by_cases ha : (prev.role == msg.role && prev.role == Role.assistant) = true
      · rw [if_pos ha]
        intro t ht
        rw [List.mem_append] at ht
        rcases ht with ht | ht
        · exact hacc t (by rw [List.mem_append]; exact Or.inl ht)
        · simp only [List.mem_singleton] at ht
          subst ht
          simp only [GoodTurn]
          have hpa : prev.role = Role.assistant := eq_of_beq (Bool.and_elim_right ha)
          have hma : msg.role = Role.assistant := by
            have heq : prev.role = msg.role := eq_of_beq (Bool.and_elim_left ha)
            rw [← heq]
            exact hpa
          have hps : strOf prev.content ≠ [] := by
            obtain ⟨pr, pc⟩ := prev
            simp only at hpa
            subst hpa
            cases pc with
            | str s => simpa [GoodTurn, strOf] using hprev
            | parts ps => simp [GoodTurn] at hprev
          unfold joinTexts
          split
          · next hempty =>
            exact absurd (by simpa using hempty) hps
          · split
            · exact hps
            · intro hh
              exact hps (List.append_eq_nil.mp hh).1
      · rw [if_neg (by simpa using ha)]
        intro t ht
        rw [List.mem_append] at ht
        rcases ht with ht | ht
        · exact hacc t ht
        · simp only [List.mem_singleton] at ht
          subst ht
          exact hmsg

theorem mergeFold_good (h : List Msg) : ∀ acc : List Msg,
    (∀ t ∈ acc, GoodTurn t) → (∀ t ∈ h, GoodTurn t) →
    ∀ t ∈ h.foldl mergeStep acc, GoodTurn t := by
  induction h with
  | nil => exact fun acc hacc _ => hacc
  | cons msg rest ih =>
    intro acc hacc hh
    rw [List.foldl_cons]
    exact ih _ (mergeStep_good acc msg hacc (hh msg (by simp)))
      (fun t ht => hh t (by simp [ht]))

theorem historyPre_good (msgs : List StoredMsg) (cid : List Char) :
    ∀ t ∈ historyPre msgs cid, GoodTurn t := by
  induction msgs with
  | nil => intro t ht; simp [historyPre] at ht
  | cons m rest ih =>
    intro t ht
    simp only [historyPre] at ht
    rw [List.mem_append] at ht
    rcases ht with ht | ht
    · split at ht
      · simp at ht
      · exact msgTurns_good m t ht
    · exact ih t ht

/-- The concrete message refuting C10's placeholder clause: other-authored,
empty text, one unreadable attachment, and an author with a visible user id. -/
def msgU1 : StoredMsg :=
  { id := "m1".toList,
    author := { isMe := false, userId := some "U1".toList },
    text := some [],
    attachments := some [{ atype := "image".toList,
                           mimeType := some "image/png".toList,
                           dataBytes := none }] }

/-- C10 counterexample: an other-authored message whose text is empty and
whose only attachment is unreadable does NOT yield the placeholder
`"(empty message)"` when the author carries a visible id — the turn's content
is the author-prefix label `"[user: U1]"` instead. -/
theorem claim10_counterexample :
    convertThreadHistory [msgU1] "t".toList =
      [⟨Role.user, Content.str "[user: U1]".toList⟩] ∧
    Msg.mk Role.user (Content.str "(empty message)".toList) ∉
      convertThreadHistory [msgU1] "t".toList :=
  ⟨by decide, by decide⟩

/-- C10 amended: every turn returned by `convertThreadHistory` has non-empty
content; a stored message with neither text nor attachments produces no turn;
an other-authored message with empty text whose attachments yield no readable
media gets as content its author-prefix label when that label is non-empty
after trimming, and the fixed placeholder `"(empty message)"` only when that
label is empty too; a self-authored message with empty text contributes no
assistant turn (at most the synthetic user turn for its readable media). -/
theorem claim10_amended :
    (∀ (msgs : List StoredMsg) (cid : List Char),
      ∀ t ∈ convertThreadHistory msgs cid, contentNonempty t.content) ∧
    (∀ m : StoredMsg, trim (m.text.getD []) = [] →
      m.attachments.getD [] = [] → msgTurns m = []) ∧
    (∀ m : StoredMsg, m.author.isMe = false → trim (m.text.getD []) = [] →
      m.attachments.getD [] ≠ [] → extractMediaParts m = [] →
      msgTurns m = [⟨Role.user, Content.str
        (orStr (trim (authorPrefix m.author)) "(empty message)".toList)⟩]) ∧
    (∀ m : StoredMsg, m.author.isMe = true → trim (m.text.getD []) = [] →
      ∀ t ∈ msgTurns m, t.role = Role.user) := by
  refine ⟨?_, ?_, ?_, ?_⟩
  · intro msgs cid t ht
    exact goodTurn_contentNonempty t
      (mergeFold_good (historyPre msgs cid) [] (by simp)
        (historyPre_good msgs cid) t ht)
  · intro m htext hatt
    simp only [msgTurns, htext, hatt]
    rfl
  · intro m hme htext hatt hmedia
    simp only [msgTurns, htext, hme, hmedia]
    have hattb : (m.attachments.getD []).isEmpty = false := by
      cases h : m.attachments.getD [] with
      | nil => exact absurd h hatt
      | cons a t => rfl
    simp only [hattb, List.isEmpty_nil, Bool.and_false, Bool.false_eq_true,
      if_false, List.map_nil]
    norm_num
  · intro m hme htext t ht
    simp only [msgTurns, htext, hme, List.isEmpty_nil, Bool.true_and,
      Bool.not_true, Bool.false_eq_true, if_false, List.nil_append,
      eq_self_iff_true, if_true] at ht
    split at ht
    · simp at ht
    · split at ht
      · simp only [List.mem_singleton] at ht
        subst ht
        rfl
      · simp at ht

/-- Witness for the amended C10 at concrete messages. -/
theorem claim10_amended_witness :
    (∀ t ∈ convertThreadHistory [msgU1] "t".toList, contentNonempty t.content) ∧
    msgTurns { id := "m0".toList, author := { isMe := false } } = [] ∧
    msgTurns msgU1 = [⟨Role.user, Content.str "[user: U1]".toList⟩] ∧
    (∀ t ∈ msgTurns { id := "m2".toList, author := { isMe := true },
                      text := some " ".toList,
                      attachments := some [{ atype := "image".toList,
                                             dataBytes := none }] },
      t.role = Role.user) := by
  refine ⟨claim10_amended.1 [msgU1] "t".toList, ?_, ?_, ?_⟩
  · exact claim10_amended.2.1
      { id := "m0".toList, author := { isMe := false } } (by decide) (by decide)
  · have h := claim10_amended.2.2.1 msgU1 (by decide) (by decide) (by decide)
      (by decide)
    rw [h]
    decide
  · exact claim10_amended.2.2.2 _ (by decide) (by decide)

/-! ## SessionContinuity: resume fallback (bot handlers) -/

/-- `isClaudeProcessExitError` from the bot handlers: an `Error` whose
lowercased message contains one of the two fatal process-level signatures. -/
def isClaudeProcessExitError : JsVal → Bool
  | .nonError => false
  | .error e =>
    let text := lowerAscii e.message
    containsSub text "claude code process exited with code".toList ||
    containsSub text "failed to spawn claude code process".toList

/-- Observable outcome of one `runAssistantWithResumeFallback` call: the
`runAssistant` invocations made, each with its resume hint; whether the stored
thread state was replaced with the empty state; the notices posted; and the
final result. -/
structure FallbackOutcome where
  calls : List (Option (List Char))
  cleared : Bool
  notices : List (List Char)
  result : Except JsVal Unit
deriving DecidableEq

/-- The notice posted when a resume fails fatally. -/
def resumeNotice : List Char :=
  "> I couldn't resume the previous session context, so I started a new one.".toList

/-- `runAssistantWithResumeFallback` (bot handlers, lines 58–88). `stored` is
the thread state's `sdkSessionId`; `r1` is the outcome of the first
`runAssistant` call and `r2` that of the retry, if one is made. An empty
stored id is falsy in JS, so it takes the no-resume path. -/
def runAssistantWithResumeFallback (stored : Option (List Char))
    (r1 r2 : Except JsVal Unit) : FallbackOutcome :=
  match stored with
  | none => ⟨[none], false, [], r1⟩
  | some sid =>
    if sid.isEmpty then ⟨[none], false, [], r1⟩
    else
      match r1 with
      | .ok _ => ⟨[some sid], false, [], .ok ()⟩
      | .error e =>
        if isClaudeProcessExitError e then
          ⟨[some sid, none], true, [resumeNotice], r2⟩
        else ⟨[some sid], false, [], .error e⟩

/-- C8: with a stored session id as resume hint, a run failing with the fatal
process-level class of error (recognized by message content) makes the handler
clear the stored thread state, post the could-not-resume notice, and retry the
same user turn exactly once with no resume hint, the retry's own outcome —
success or error — propagating with no further fallback; any error outside
that class propagates immediately with no clearing, no notice and no retry. -/
theorem claim8_resumeFallback (sid : List Char) (r2 : Except JsVal Unit)
    (e : JsVal) (hsid : sid ≠ []) :
    (isClaudeProcessExitError e = true →
      runAssistantWithResumeFallback (some sid) (.error e) r2 =
        ⟨[some sid, none], true, [resumeNotice], r2⟩) ∧
    (isClaudeProcessExitError e = false →
      runAssistantWithResumeFallback (some sid) (.error e) r2 =
        ⟨[some sid], false, [], .error e⟩) := by
  have hne : sid.isEmpty = false := by
    cases sid with
    | nil => exact absurd rfl hsid
    | cons a t => rfl
  constructor
  · intro hfatal
    simp only [runAssistantWithResumeFallback, hne, Bool.false_eq_true,
      if_false, hfatal, if_true]
  · intro hother
    simp only [runAssistantWithResumeFallback, hne, Bool.false_eq_true,
      if_false, hother]

/-- A fatal process-level resume error. -/
def fatalErr : JsVal :=
  .error { message := "Claude Code process exited with code 1".toList }

/-- Witness for C8 at concrete errors and session id. -/
theorem claim8_resumeFallback_witness :
    runAssistantWithResumeFallback (some "s1".toList) (.error fatalErr)
        (.ok ()) =
      ⟨[some "s1".toList, none], true, [resumeNotice], .ok ()⟩ ∧
    runAssistantWithResumeFallback (some "s1".toList) (.error plainErr)
        (.ok ()) =
      ⟨[some "s1".toList], false, [], .error plainErr⟩ := by
  constructor
  · exact (claim8_resumeFallback "s1".toList (.ok ()) fatalErr
      (by decide)).1 (by decide)
  · exact (claim8_resumeFallback "s1".toList (.ok ()) plainErr
      (by decide)).2 (by decide)

end Rina
